import Mathlib

/-!
Shallow embedding of the ctags-based prototype-generator core of
`arduino-cli` (package `ctags`, file `ctags_parser.go`).

Go strings are modelled as `List Char`; Go byte indices coincide with the
character indices used here on every string the code slices, because each
slice bound is produced by a search over the same string it slices.
Fallible operations (Go runtime panics: out-of-range index, invalid slice
bounds) are modelled with `Option`.
-/

set_option maxRecDepth 40000

/-- Go `string`, modelled as a list of characters. -/
abbrev Str := List Char

namespace Ctags

/-- `unicode.IsSpace`: the Unicode white-space code points recognized by Go's
`strings.TrimSpace`. -/
def goIsSpace (c : Char) : Bool :=
  c = ' ' || c = '\t' || c = '\n' || (c.toNat = 11) || (c.toNat = 12) ||
  c = '\r' || (c.toNat = 0x85) || (c.toNat = 0xA0) || (c.toNat = 0x1680) ||
  (0x2000 ≤ c.toNat && c.toNat ≤ 0x200A) || (c.toNat = 0x2028) ||
  (c.toNat = 0x2029) || (c.toNat = 0x202F) || (c.toNat = 0x205F) ||
  (c.toNat = 0x3000)

/-- Go `strings.TrimSpace`: drop white space from both ends. -/
def goTrimSpace (s : Str) : Str :=
  ((s.dropWhile goIsSpace).reverse.dropWhile goIsSpace).reverse

/-- Go `strings.Split(s, sep)` for a one-character separator (the source only
splits on `"\n"` and `"\t"`). Always returns at least one (possibly empty)
piece. -/
def goSplit : Str → Char → List Str
  | [], _ => [[]]
  | c :: rest, sep =>
    if c = sep then
      [] :: goSplit rest sep
    else
      match goSplit rest sep with
      | [] => [[c]]
      | r :: rs => (c :: r) :: rs

/-- Go `strings.Index(s, sub)`: index of the first occurrence of `sub` in
`s`, or `-1` if `sub` is not present. -/
def goIndex : Str → Str → Int
  | [], sub => if sub = [] then 0 else -1
  | c :: rest, sub =>
    if sub.isPrefixOf (c :: rest) then 0
    else if goIndex rest sub = -1 then -1
    else goIndex rest sub + 1

/-- Go `strings.LastIndex(s, sub)`: index of the last occurrence of `sub` in
`s`, or `-1` if `sub` is not present. -/
def goLastIndex : Str → Str → Int
  | [], sub => if sub = [] then 0 else -1
  | c :: rest, sub =>
    if goLastIndex rest sub ≠ -1 then goLastIndex rest sub + 1
    else if sub.isPrefixOf (c :: rest) then 0 else -1

/-- Go `strings.Contains(s, sub)` (defined via `Index` as in the Go stdlib). -/
def goContains (s sub : Str) : Bool :=
  goIndex s sub ≠ -1

/-- `types.CTag`: one parsed record from the ctags output
(`legacy/builder/types`; fields as read and written by `ctags_parser.go`).
`SkipMe` is the suppression flag; `Prototype` is the synthesized
declaration text; `PrototypeModifiers` the accumulated storage qualifiers. -/
structure CTag where
  FunctionName : Str := []
  Filename : Str := []
  Kind : Str := []
  Line : Int := 0
  Typeref : Str := []
  Signature : Str := []
  Class : Str := []
  Struct : Str := []
  Namespace : Str := []
  Code : Str := []
  Prototype : Str := []
  PrototypeModifiers : Str := []
  SkipMe : Bool := false
  deriving Repr, DecidableEq

/-- `const KIND_PROTOTYPE = "prototype"`. -/
def KIND_PROTOTYPE : Str := "prototype".data

/-- `const KIND_FUNCTION = "function"`. -/
def KIND_FUNCTION : Str := "function".data

/-- `const TEMPLATE = "template"`. -/
def TEMPLATE : Str := "template".data

/-- `const STATIC = "static"`. -/
def STATIC : Str := "static".data

/-- `var KNOWN_TAG_KINDS = map[string]bool{"prototype": true, "function": true}`,
as the lookup function it is used as (a missing key yields `false`). -/
def KNOWN_TAG_KINDS (kind : Str) : Bool :=
  kind = KIND_PROTOTYPE || kind = KIND_FUNCTION

/-- Go `strings.Replace(s, "\\\\", "\\", -1)` (used on the filename field):
each doubled backslash collapses to a single one, scanning left to right. -/
def unescapeBackslashes : Str → Str
  | '\\' :: '\\' :: rest => '\\' :: unescapeBackslashes rest
  | c :: rest => c :: unescapeBackslashes rest
  | [] => []

/-- Whether `strconv.Atoi` would succeed syntactically on `s` (an optional
sign followed by at least one decimal digit); when this is false, Atoi
reports a syntax error together with the value `0`. -/
def isValidIntSyntax (s : Str) : Bool :=
  let digits : Str := match s with
    | '+' :: rest => rest
    | '-' :: rest => rest
    | _ => s
  digits ≠ [] && digits.all Char.isDigit

/-- Go `strconv.Atoi` as used at `val, _ := strconv.Atoi(value)`: the error is
discarded, so a syntactically invalid number yields `0` and an out-of-range
number yields the nearest `int64` bound (`ParseInt`'s clamped value). -/
def goAtoi (s : Str) : Int :=
  if isValidIntSyntax s then
    let digits : Str := match s with
      | '+' :: rest => rest
      | '-' :: rest => rest
      | _ => s
    let n : Int := digits.foldl (fun a c => a * 10 + ((c.toNat : Int) - 48)) 0
    match s with
    | '-' :: _ => if n > 9223372036854775808 then -9223372036854775808 else -n
    | _ => if n > 9223372036854775807 then 9223372036854775807 else n
  else 0

/-- The body of the `for _, part := range parts` loop of `parseTag`: one
tab-separated `key:value` field updates the tag under construction (the
second component is the loop-local `returntype` variable). -/
def parseStep (acc : CTag × Str) (part : Str) : CTag × Str :=
  let tag := acc.1
  let returntype := acc.2
  if goContains part ":".data then
    let colon := (goIndex part ":".data).toNat
    let field := part.take colon
    let value := goTrimSpace (part.drop (colon + 1))
    if field = "kind".data then ({ tag with Kind := value }, returntype)
    else if field = "line".data then ({ tag with Line := goAtoi value }, returntype)
    else if field = "typeref".data then ({ tag with Typeref := value }, returntype)
    else if field = "signature".data then ({ tag with Signature := value }, returntype)
    else if field = "returntype".data then (tag, value)
    else if field = "class".data then ({ tag with Class := value }, returntype)
    else if field = "struct".data then ({ tag with Struct := value }, returntype)
    else if field = "namespace".data then ({ tag with Namespace := value }, returntype)
    else (tag, returntype)
  else (tag, returntype)

/-- `parseTag`: decode one (already trimmed, non-blank) ctags row. `none`
models a Go runtime panic: indexing `parts[1]` when the row has no tab, and
the slice `row[Index(row, "/^")+2 : Index(row, "$/;")]` when the first `$/;`
occurs before the first `/^` (slice bounds out of range). Both slice bounds
are otherwise within range because they locate substrings of `row`. -/
def parseTag (row : Str) : Option CTag :=
  match goSplit row '\t' with
  | p0 :: p1 :: rest =>
    let tag0 : CTag := { FunctionName := p0,
                         Filename := unescapeBackslashes p1 }
    let acc := rest.foldl parseStep (tag0, [])
    let tag1 := { acc.1 with
                  Prototype := acc.2 ++ " ".data ++ acc.1.FunctionName ++
                               acc.1.Signature ++ ";".data }
    if goContains row "/^".data && goContains row "$/;".data then
      if goIndex row "$/;".data < goIndex row "/^".data + 2 then
        none
      else
        some { tag1 with
               Code := (row.take (goIndex row "$/;".data).toNat).drop
                         ((goIndex row "/^".data).toNat + 2) }
    else
      some tag1
  | _ => none

/-- `removeEmpty`: trim every row and keep the non-blank ones. -/
def removeEmpty (rows : List Str) : List Str :=
  (rows.map goTrimSpace).filter (fun row => row.length > 0)

/-- The decode loop of `Parse`: `p.tags = append(p.tags, parseTag(row))` for
each row, in order; `none` models a panic in any `parseTag` call. -/
def parseRows : List Str → Option (List CTag)
  | [] => some []
  | row :: rows =>
    match parseTag row, parseRows rows with
    | some tag, some tags => some (tag :: tags)
    | _, _ => none

/-- `tagIsUnknown`: the kind is not in `KNOWN_TAG_KINDS`. -/
def tagIsUnknown (tag : CTag) : Bool :=
  !(KNOWN_TAG_KINDS tag.Kind)

/-- `isHandled`: false as soon as the tag carries a class, struct or
namespace scope. -/
def isHandled (tag : CTag) : Bool :=
  if tag.Class ≠ [] then false
  else if tag.Struct ≠ [] then false
  else if tag.Namespace ≠ [] then false
  else true

/-- `tagIsUnhandled`. -/
def tagIsUnhandled (tag : CTag) : Bool :=
  !(isHandled tag)

/-- `skipTagsWhere`: on every tag not yet skipped, set `SkipMe` to the value
of the predicate (an already-skipped tag is left untouched). -/
def skipTagsWhere (skipFunc : CTag → Bool) (tags : List CTag) : List CTag :=
  tags.map (fun tag => if !tag.SkipMe then { tag with SkipMe := skipFunc tag } else tag)

/-- `addPrototype`: synthesize the declaration for one tag. The
`findTemplateMultiline` collaborator (a separate source file reading the
tagged source; not part of this core) is abstracted as the parameter `ftm`. -/
def addPrototype (ftm : CTag → Str) (tag : CTag) : CTag :=
  if goIndex tag.Prototype TEMPLATE = 0 then
    if goIndex tag.Code TEMPLATE = 0 then
      let code := tag.Code
      let code := if goContains code "\x7b".data then
                    code.take (goIndex code "\x7b".data).toNat
                  else
                    code.take (goLastIndex code ")".data + 1).toNat
      { tag with Prototype := code ++ ";".data }
    else
      { tag with Prototype := ftm tag ++ ";".data }
  else
    let tag := { tag with PrototypeModifiers := [] }
    let tag := if goContains tag.Code (STATIC ++ " ".data) then
                 { tag with PrototypeModifiers := tag.PrototypeModifiers ++ " ".data ++ STATIC }
               else tag
    { tag with PrototypeModifiers := goTrimSpace tag.PrototypeModifiers }

/-- `addPrototypes`: run `addPrototype` over every non-skipped tag. -/
def addPrototypes (ftm : CTag → Str) (tags : List CTag) : List CTag :=
  tags.map (fun tag => if !tag.SkipMe then addPrototype ftm tag else tag)

/-- `removeDefinedProtypes`: collect the prototype texts of the
prototype-kind tags, then skip every tag whose prototype text is in that
set (the prototype-kind tags themselves included). -/
def removeDefinedProtypes (tags : List CTag) : List CTag :=
  let definedPrototypes := (tags.filter (fun tag => tag.Kind = KIND_PROTOTYPE)).map
    (fun tag => tag.Prototype)
  tags.map (fun tag =>
    if tag.Prototype ∈ definedPrototypes then { tag with SkipMe := true } else tag)

/-- The scan of `skipDuplicates` with its `definedPrototypes` set made
explicit: a not-yet-skipped tag with unseen prototype text records its text
and passes; every other tag is skipped. -/
def skipDuplicatesAux (seen : List Str) : List CTag → List CTag
  | [] => []
  | tag :: rest =>
    if tag.Prototype ∉ seen && !tag.SkipMe then
      tag :: skipDuplicatesAux (tag.Prototype :: seen) rest
    else
      { tag with SkipMe := true } :: skipDuplicatesAux seen rest

/-- `skipDuplicates`. -/
def skipDuplicates (tags : List CTag) : List CTag :=
  skipDuplicatesAux [] tags

/-- `removeTralingSemicolon` (helper of the consistency filter; Go
`s[0:len(s)-1]`; its call site always passes a non-empty string, for which
`List.take` agrees with the Go slice). -/
def removeTralingSemicolon (s : Str) : Str :=
  s.take (s.length - 1)

/-- `removeSpacesAndTabs`: `strings.Replace` of `" "` and then `"\t"` by the
empty string removes every occurrence of those characters. -/
def removeSpacesAndTabs (s : Str) : Str :=
  (s.filter (fun c => c ≠ ' ')).filter (fun c => c ≠ '\t')

/-- Modelled from the spec: the consistency filter predicate
`prototypeAndCodeDontMatch` is referenced by `Parse` but its body is not
among the provided sources. Per the spec (sections 4.6 and 9) it is a
conservative normalized-substring check: the tag is dropped when its
declaration text, with spaces/tabs removed and the trailing semicolon
stripped, does not occur inside the similarly normalized code snippet. -/
def prototypeAndCodeDontMatch (tag : CTag) : Bool :=
  let code := removeSpacesAndTabs tag.Code
  let prototype := removeTralingSemicolon (removeSpacesAndTabs tag.Prototype)
  goIndex code prototype = -1

/-- `CTagsParser.Parse`: decode all non-blank rows, then run the fixed stage
pipeline. `none` models a decode panic. The `mainFile` argument of the Go
method is only consumed by the `findTemplateMultiline` collaborator, which
is abstracted as `ftm`. -/
def parse (ftm : CTag → Str) (ctagsOutput : Str) : Option (List CTag) :=
  match parseRows (removeEmpty (goSplit ctagsOutput '\n')) with
  | none => none
  | some tags =>
    some (skipTagsWhere prototypeAndCodeDontMatch
      (skipDuplicates
        (removeDefinedProtypes
          (addPrototypes ftm
            (skipTagsWhere tagIsUnhandled
              (skipTagsWhere tagIsUnknown tags))))))

/-- A trivial instantiation of the `findTemplateMultiline` collaborator,
used for the concrete scenarios below (none of which contains a
template tag whose snippet fails to start with `template`). -/
def ftm0 : CTag → Str := fun _ => []

/-! ### Observation helpers used to state properties of the decoder -/

/-- Whether one tab-separated field is a `key:value` field for the given
key: it contains a colon and the text before the first colon is `key`. -/
def isFieldPart (key part : Str) : Bool :=
  goContains part ":".data && decide (part.take (goIndex part ":".data).toNat = key)

/-- The update a single field applies to the running value of one recognized
string-valued key of `parseTag` (last occurrence wins). -/
def fieldUpd (key : Str) (acc : Str) (part : Str) : Str :=
  if goContains part ":".data then
    let colon := (goIndex part ":".data).toNat
    let field := part.take colon
    let value := goTrimSpace (part.drop (colon + 1))
    if field = key then value else acc
  else acc

/-- The update a single field applies to the running `line` number of
`parseTag` (the value goes through the error-discarding `strconv.Atoi`). -/
def lineUpd (acc : Int) (part : Str) : Int :=
  if goContains part ":".data then
    let colon := (goIndex part ":".data).toNat
    let field := part.take colon
    let value := goTrimSpace (part.drop (colon + 1))
    if field = "line".data then goAtoi value else acc
  else acc

/-- The value the decoder extracts for one recognized key of a row: the
trimmed text after the colon of the last field for that key, or the empty
string when the row has no such field. -/
def tagFieldValue (row key : Str) : Str :=
  ((goSplit row '\t').drop 2).foldl (fieldUpd key) []

/-- The pattern markers of a row are absent or well ordered: decoding the
row does not hit the out-of-range code-snippet slice. -/
def markerOk (row : Str) : Bool :=
  !(goContains row "/^".data && goContains row "$/;".data &&
    decide (goIndex row "$/;".data < goIndex row "/^".data + 2))

/-- Field-by-field description of the tag `parseTag` decodes from a row:
every recognized key independently keeps the value of its last field
(defaulting to the empty string, and to `0` for the line number), the
declaration is seeded from the return type, name and signature, and the
code snippet is the text between the `/^` and `$/;` markers. -/
def extractedTag (row : Str) : CTag :=
  let parts := goSplit row '\t'
  let rest := parts.drop 2
  let name := parts.headD []
  let signature := rest.foldl (fieldUpd "signature".data) []
  { FunctionName := name
    Filename := unescapeBackslashes ((parts.drop 1).headD [])
    Kind := rest.foldl (fieldUpd "kind".data) []
    Line := rest.foldl lineUpd 0
    Typeref := rest.foldl (fieldUpd "typeref".data) []
    Signature := signature
    Class := rest.foldl (fieldUpd "class".data) []
    Struct := rest.foldl (fieldUpd "struct".data) []
    Namespace := rest.foldl (fieldUpd "namespace".data) []
    Code := if goContains row "/^".data && goContains row "$/;".data then
              (row.take (goIndex row "$/;".data).toNat).drop
                ((goIndex row "/^".data).toNat + 2)
            else []
    Prototype := rest.foldl (fieldUpd "returntype".data) [] ++ " ".data ++
                 name ++ signature ++ ";".data
    PrototypeModifiers := []
    SkipMe := false }

/-- The fields of a tag that no pipeline stage rewrites (everything except
the suppression flag, the declaration text and its modifiers), kept for
stating order- and field-preservation. -/
def stableOf (t : CTag) : CTag :=
  { t with SkipMe := false, Prototype := [], PrototypeModifiers := [] }

/-- A tag with only its suppression flag forgotten (for the stages that
write nothing but `SkipMe`). -/
def forgetSkip (t : CTag) : CTag :=
  { t with SkipMe := false }

/-! ### Concrete scenario inputs from the specification -/

/-- The spec's shadowing scenario (section 8): a function tag and a
prototype tag for `void foo();`. -/
def shadowInput : Str :=
  ("foo\tsketch.ino\tkind:function\tline:3\treturntype:void\tsignature:()\t/^void foo() \x7b$/;\n" ++
   "foo\tsketch.ino\tkind:prototype\tline:1\treturntype:void\tsignature:()\t/^void foo();$/;").data

/-- The tag list the pipeline returns on `shadowInput`. -/
def shadowTags : List CTag :=
  (parse ftm0 shadowInput).getD []

/-- The spec's deduplication scenario: three function tags all synthesizing
`int bar(int);`. -/
def dedupInput : Str :=
  ("bar\tsketch.ino\tkind:function\tline:3\treturntype:int\tsignature:(int)\t/^int bar(int) \x7b$/;\n" ++
   "bar\tsketch.ino\tkind:function\tline:9\treturntype:int\tsignature:(int)\t/^int bar(int) \x7b$/;\n" ++
   "bar\tsketch.ino\tkind:function\tline:20\treturntype:int\tsignature:(int)\t/^int bar(int) \x7b$/;").data

/-- The spec's template-reconstruction tag: a template whose code snippet is
the single-line definition `template <typename T> T add(T a, T b) {`. -/
def templateTag : CTag :=
  { FunctionName := "add".data
    Kind := "function".data
    Prototype := "template <typename T> T add(T a, T b);".data
    Code := "template <typename T> T add(T a, T b) \x7b".data }

/-- A single row whose kind (`variable`) is not a known tag kind. -/
def kindRow : Str := "v\tf.c\tkind:variable\tline:1".data

/-- A single function-kind row scoped inside a class. -/
def scopeRow : Str := "m\tf.c\tkind:function\tclass:Foo\tline:1".data

/-- A well-formed row whose `line:` field value is not a number. -/
def badLineRow : Str := "foo\tf.c\tkind:function\tline:abc\tsignature:()\treturntype:void".data

/-! ### Lemmas: the decoder computes the per-field extractors -/

theorem parseStep_eq (acc : CTag × Str) (part : Str) :
    parseStep acc part =
      ({ acc.1 with
          Kind := fieldUpd "kind".data acc.1.Kind part,
          Line := lineUpd acc.1.Line part,
          Typeref := fieldUpd "typeref".data acc.1.Typeref part,
          Signature := fieldUpd "signature".data acc.1.Signature part,
          Class := fieldUpd "class".data acc.1.Class part,
          Struct := fieldUpd "struct".data acc.1.Struct part,
          Namespace := fieldUpd "namespace".data acc.1.Namespace part },
        fieldUpd "returntype".data acc.2 part) := by
  by_cases h0 : goContains part ":".data
  case neg => simp [parseStep, fieldUpd, lineUpd, h0]
  case pos =>
    by_cases h1 : part.take (goIndex part ":".data).toNat = "kind".data
    · simp [parseStep, fieldUpd, lineUpd, h0, h1]
    · by_cases h2 : part.take (goIndex part ":".data).toNat = "line".data
      · simp [parseStep, fieldUpd, lineUpd, h0, h1, h2]
      · by_cases h3 : part.take (goIndex part ":".data).toNat = "typeref".data
        · simp [parseStep, fieldUpd, lineUpd, h0, h1, h2, h3]
        · by_cases h4 : part.take (goIndex part ":".data).toNat = "signature".data
          · simp [parseStep, fieldUpd, lineUpd, h0, h1, h2, h3, h4]
          · by_cases h5 : part.take (goIndex part ":".data).toNat = "returntype".data
            · simp [parseStep, fieldUpd, lineUpd, h0, h1, h2, h3, h4, h5]
            · by_cases h6 : part.take (goIndex part ":".data).toNat = "class".data
              · simp [parseStep, fieldUpd, lineUpd, h0, h1, h2, h3, h4, h5, h6]
              · by_cases h7 : part.take (goIndex part ":".data).toNat = "struct".data
                · simp [parseStep, fieldUpd, lineUpd, h0, h1, h2, h3, h4, h5, h6, h7]
                · by_cases h8 : part.take (goIndex part ":".data).toNat = "namespace".data
                  · simp [parseStep, fieldUpd, lineUpd, h0, h1, h2, h3, h4, h5, h6, h7, h8]
                  · simp [parseStep, fieldUpd, lineUpd, h0, h1, h2, h3, h4, h5, h6, h7, h8]

theorem parseFold_eq (parts : List Str) (acc : CTag × Str) :
    parts.foldl parseStep acc =
      ({ acc.1 with
          Kind := parts.foldl (fieldUpd "kind".data) acc.1.Kind,
          Line := parts.foldl lineUpd acc.1.Line,
          Typeref := parts.foldl (fieldUpd "typeref".data) acc.1.Typeref,
          Signature := parts.foldl (fieldUpd "signature".data) acc.1.Signature,
          Class := parts.foldl (fieldUpd "class".data) acc.1.Class,
          Struct := parts.foldl (fieldUpd "struct".data) acc.1.Struct,
          Namespace := parts.foldl (fieldUpd "namespace".data) acc.1.Namespace },
        parts.foldl (fieldUpd "returntype".data) acc.2) := by
  induction parts generalizing acc with
  | nil => rfl
  | cons p ps ih =>
    simp only [List.foldl_cons]
    rw [parseStep_eq]
    exact ih _

theorem parseTag_some_eq {row : Str} {t : CTag} (h : parseTag row = some t) :
    t = extractedTag row := by
  match hsplit : goSplit row '\t' with
  | [] => simp [parseTag, hsplit] at h
  | [p] => simp [parseTag, hsplit] at h
  | p0 :: p1 :: rest =>
    simp only [parseTag, hsplit, parseFold_eq] at h
    by_cases hc : (goContains row "/^".data && goContains row "$/;".data) = true
    · by_cases hd : goIndex row "$/;".data < goIndex row "/^".data + 2
      · simp [hc, hd] at h
      · simp only [hc, hd, if_true, if_false, Option.some.injEq] at h
        subst h
        simp [extractedTag, hsplit, hc]
    · rw [Bool.not_eq_true] at hc
      simp only [hc, Bool.false_eq_true, if_false, Option.some.injEq] at h
      subst h
      simp [extractedTag, hsplit, hc]

theorem parseTag_eq_extracted (row : Str)
    (htab : 2 ≤ (goSplit row '\t').length) (hmark : markerOk row = true) :
    parseTag row = some (extractedTag row) := by
  match hsplit : goSplit row '\t' with
  | [] => rw [hsplit] at htab; simp at htab
  | [p] => rw [hsplit] at htab; simp at htab
  | p0 :: p1 :: rest =>
    simp only [parseTag, hsplit, parseFold_eq]
    by_cases hc : (goContains row "/^".data && goContains row "$/;".data) = true
    · have hd : ¬ goIndex row "$/;".data < goIndex row "/^".data + 2 := by
        have h' := hmark
        unfold markerOk at h'
        rw [hc, Bool.true_and, Bool.not_eq_true'] at h'
        exact of_decide_eq_false h'
      simp [hc, hd, extractedTag, hsplit]
    · rw [Bool.not_eq_true] at hc
      simp [hc, extractedTag, hsplit]

theorem extractedTag_skipMe (row : Str) : (extractedTag row).SkipMe = false := by
  simp [extractedTag]

theorem parseTag_skipMe {row : Str} {t : CTag} (h : parseTag row = some t) :
    t.SkipMe = false := by
  rw [parseTag_some_eq h]
  exact extractedTag_skipMe row

theorem goAtoi_invalid {s : Str} (h : isValidIntSyntax s = false) : goAtoi s = 0 := by
  unfold goAtoi
  rw [h]
  rfl

theorem fieldUpd_eq (key acc part : Str) :
    fieldUpd key acc part =
      if isFieldPart key part then
        goTrimSpace (part.drop ((goIndex part ":".data).toNat + 1))
      else acc := by
  unfold fieldUpd isFieldPart
  by_cases h0 : goContains part ":".data
  · by_cases h1 : part.take (goIndex part ":".data).toNat = key <;> simp [h0, h1]
  · simp [h0]

theorem lineUpd_eq (acc : Int) (part : Str) :
    lineUpd acc part =
      if isFieldPart "line".data part then
        goAtoi (goTrimSpace (part.drop ((goIndex part ":".data).toNat + 1)))
      else acc := by
  unfold lineUpd isFieldPart
  by_cases h0 : goContains part ":".data
  · by_cases h1 : part.take (goIndex part ":".data).toNat = "line".data <;> simp [h0, h1]
  · simp [h0]

theorem fieldUpd_fold_no_match {key : Str} {parts : List Str}
    (h : ∀ part ∈ parts, isFieldPart key part = false) (acc : Str) :
    parts.foldl (fieldUpd key) acc = acc := by
  induction parts generalizing acc with
  | nil => rfl
  | cons p ps ih =>
    rw [List.foldl_cons, fieldUpd_eq, if_neg]
    · exact ih (fun part hp => h part (List.mem_cons_of_mem p hp)) acc
    · simp [h p (List.mem_cons_self p ps)]

theorem lineUpd_fold (parts : List Str) (a : Int) (b : Str) :
    parts.foldl lineUpd a =
      if parts.any (isFieldPart "line".data) then
        goAtoi (parts.foldl (fieldUpd "line".data) b)
      else a := by
  induction parts generalizing a b with
  | nil => rfl
  | cons p ps ih =>
    rw [List.foldl_cons, List.foldl_cons, lineUpd_eq, fieldUpd_eq, List.any_cons]
    by_cases h1 : isFieldPart "line".data p = true
    · rw [if_pos h1, if_pos h1, h1, Bool.true_or, if_pos rfl]
      by_cases h2 : ps.any (isFieldPart "line".data) = true
      · rw [ih (goAtoi (goTrimSpace (p.drop ((goIndex p ":".data).toNat + 1))))
            (goTrimSpace (p.drop ((goIndex p ":".data).toNat + 1))), if_pos h2]
      · rw [ih (goAtoi (goTrimSpace (p.drop ((goIndex p ":".data).toNat + 1))))
            (goTrimSpace (p.drop ((goIndex p ":".data).toNat + 1))), if_neg h2]
        rw [Bool.not_eq_true, List.any_eq_false] at h2
        rw [fieldUpd_fold_no_match (fun part hp => Bool.eq_false_iff.mpr (h2 part hp))]
    · rw [Bool.not_eq_true] at h1
      simp only [h1, Bool.false_or, Bool.false_eq_true, if_false]
      exact ih a b

/-! ### Lemmas: the decode loop -/

theorem parseRows_isSome {rows : List Str}
    (h : ∀ row ∈ rows, (parseTag row).isSome = true) :
    (parseRows rows).isSome = true := by
  induction rows with
  | nil => rfl
  | cons row rows ih =>
    have h1 := h row (List.mem_cons_self row rows)
    have h2 := ih (fun r hr => h r (List.mem_cons_of_mem row hr))
    unfold parseRows
    match ht : parseTag row, hts : parseRows rows with
    | some tag, some tags => rfl
    | some tag, none => rw [hts] at h2; simp at h2
    | none, _ => rw [ht] at h1; simp at h1

theorem parseRows_getElem? {rows : List Str} {tags : List CTag}
    (h : parseRows rows = some tags) :
    tags.length = rows.length ∧
      ∀ i, i < rows.length → ∃ row t, rows[i]? = some row ∧ tags[i]? = some t ∧
        parseTag row = some t := by
  induction rows generalizing tags with
  | nil =>
    unfold parseRows at h
    cases h
    exact ⟨rfl, fun i hi => absurd hi (by simp)⟩
  | cons row rows ih =>
    unfold parseRows at h
    match ht : parseTag row, hts : parseRows rows with
    | some tag, some tags' =>
      rw [ht, hts] at h
      cases h
      obtain ⟨hlen, hget⟩ := ih hts
      refine ⟨by simp [hlen], fun i hi => ?_⟩
      match i with
      | 0 => exact ⟨row, tag, by simp, by simp, ht⟩
      | i + 1 =>
        obtain ⟨r, t, hr, htg, hp⟩ := hget i (by simpa using hi)
        exact ⟨r, t, by simpa using hr, by simpa using htg, hp⟩
    | some tag, none => rw [ht, hts] at h; cases h
    | none, _ => rw [ht] at h; cases h

/-! ### Lemmas: the filter stages -/

theorem stableOf_fields {u t : CTag} (h : stableOf u = stableOf t) :
    u.FunctionName = t.FunctionName ∧ u.Filename = t.Filename ∧ u.Kind = t.Kind ∧
    u.Line = t.Line ∧ u.Typeref = t.Typeref ∧ u.Signature = t.Signature ∧
    u.Class = t.Class ∧ u.Struct = t.Struct ∧ u.Namespace = t.Namespace ∧
    u.Code = t.Code := by
  unfold stableOf at h
  simp only [CTag.mk.injEq] at h
  exact ⟨h.1, h.2.1, h.2.2.1, h.2.2.2.1, h.2.2.2.2.1, h.2.2.2.2.2.1, h.2.2.2.2.2.2.1,
    h.2.2.2.2.2.2.2.1, h.2.2.2.2.2.2.2.2.1, h.2.2.2.2.2.2.2.2.2.1⟩

theorem forgetSkip_fields {u t : CTag} (h : forgetSkip u = forgetSkip t) :
    u.Kind = t.Kind ∧ u.Prototype = t.Prototype ∧ u.Class = t.Class ∧
    u.Struct = t.Struct ∧ u.Namespace = t.Namespace := by
  unfold forgetSkip at h
  simp only [CTag.mk.injEq] at h
  exact ⟨h.2.2.1, h.2.2.2.2.2.2.2.2.2.2.1, h.2.2.2.2.2.2.1, h.2.2.2.2.2.2.2.1,
    h.2.2.2.2.2.2.2.2.1⟩

theorem stable_of_forget {l l' : List CTag}
    (h : l.map forgetSkip = l'.map forgetSkip) : l.map stableOf = l'.map stableOf :=
  calc l.map stableOf
      = l.map (stableOf ∘ forgetSkip) := List.map_congr_left (fun t _ => rfl)
    _ = (l.map forgetSkip).map stableOf := (List.map_map ..).symm
    _ = (l'.map forgetSkip).map stableOf := by rw [h]
    _ = l'.map (stableOf ∘ forgetSkip) := List.map_map ..
    _ = l'.map stableOf := (List.map_congr_left (fun t _ => rfl)).symm

theorem stable_getElem? {l l' : List CTag} (h : l.map stableOf = l'.map stableOf)
    {i : Nat} {t : CTag} (ht : l[i]? = some t) :
    ∃ u, l'[i]? = some u ∧ stableOf u = stableOf t := by
  have h2 := congrArg (fun xs => xs[i]?) h
  simp only [List.getElem?_map] at h2
  rw [ht] at h2
  cases hu : l'[i]? with
  | none => rw [hu] at h2; simp at h2
  | some u =>
    rw [hu] at h2
    simp only [Option.map_some'] at h2
    injection h2 with h3
    exact ⟨u, rfl, h3.symm⟩

theorem forget_getElem? {l l' : List CTag} (h : l.map forgetSkip = l'.map forgetSkip)
    {i : Nat} {t : CTag} (ht : l[i]? = some t) :
    ∃ u, l'[i]? = some u ∧ forgetSkip u = forgetSkip t := by
  have h2 := congrArg (fun xs => xs[i]?) h
  simp only [List.getElem?_map] at h2
  rw [ht] at h2
  cases hu : l'[i]? with
  | none => rw [hu] at h2; simp at h2
  | some u =>
    rw [hu] at h2
    simp only [Option.map_some'] at h2
    injection h2 with h3
    exact ⟨u, rfl, h3.symm⟩

theorem skipTagsWhere_getElem? (f : CTag → Bool) (l : List CTag) (i : Nat) :
    (skipTagsWhere f l)[i]? =
      (l[i]?).map (fun t => if !t.SkipMe then { t with SkipMe := f t } else t) :=
  List.getElem?_map ..

theorem skipTagsWhere_forget (f : CTag → Bool) (l : List CTag) :
    (skipTagsWhere f l).map forgetSkip = l.map forgetSkip := by
  unfold skipTagsWhere
  rw [List.map_map]
  refine List.map_congr_left (fun t _ => ?_)
  by_cases h : t.SkipMe <;> simp [forgetSkip, Function.comp, h]

theorem skipTagsWhere_skipMono (f : CTag → Bool) (l : List CTag) (i : Nat)
    (h : l[i]?.map CTag.SkipMe = some true) :
    (skipTagsWhere f l)[i]?.map CTag.SkipMe = some true := by
  rw [skipTagsWhere_getElem?]
  cases hx : l[i]? with
  | none => simp [hx] at h
  | some x =>
    rw [hx] at h
    simp only [Option.map_some'] at h ⊢
    replace h : x.SkipMe = true := by simpa using h
    simp [h]

theorem addPrototype_skipMe (ftm : CTag → Str) (t : CTag) :
    (addPrototype ftm t).SkipMe = t.SkipMe := by
  unfold addPrototype
  by_cases h1 : goIndex t.Prototype TEMPLATE = 0
  · by_cases h2 : goIndex t.Code TEMPLATE = 0 <;> simp [h1, h2]
  · by_cases h3 : goContains t.Code (STATIC ++ " ".data) <;> simp [h1, h3]

theorem addPrototype_stable (ftm : CTag → Str) (t : CTag) :
    stableOf (addPrototype ftm t) = stableOf t := by
  unfold addPrototype stableOf
  by_cases h1 : goIndex t.Prototype TEMPLATE = 0
  · by_cases h2 : goIndex t.Code TEMPLATE = 0 <;> simp [h1, h2]
  · by_cases h3 : goContains t.Code (STATIC ++ " ".data) <;> simp [h1, h3]

theorem addPrototypes_getElem? (ftm : CTag → Str) (l : List CTag) (i : Nat) :
    (addPrototypes ftm l)[i]? =
      (l[i]?).map (fun t => if !t.SkipMe then addPrototype ftm t else t) :=
  List.getElem?_map ..

theorem addPrototypes_skipEq (ftm : CTag → Str) (l : List CTag) (i : Nat) :
    (addPrototypes ftm l)[i]?.map CTag.SkipMe = l[i]?.map CTag.SkipMe := by
  rw [addPrototypes_getElem?]
  cases hx : l[i]? with
  | none => rfl
  | some x => by_cases h : x.SkipMe <;> simp [h, addPrototype_skipMe]

theorem addPrototypes_stable (ftm : CTag → Str) (l : List CTag) :
    (addPrototypes ftm l).map stableOf = l.map stableOf := by
  unfold addPrototypes
  rw [List.map_map]
  refine List.map_congr_left (fun t _ => ?_)
  by_cases h : t.SkipMe <;> simp [Function.comp, h, addPrototype_stable]

theorem removeDefinedProtypes_getElem? (l : List CTag) (i : Nat) :
    (removeDefinedProtypes l)[i]? =
      (l[i]?).map (fun t =>
        if t.Prototype ∈ (l.filter (fun tag => tag.Kind = KIND_PROTOTYPE)).map
            (fun tag => tag.Prototype) then
          { t with SkipMe := true }
        else t) := by
  simp only [removeDefinedProtypes, List.getElem?_map]

theorem removeDefinedProtypes_skipMono (l : List CTag) (i : Nat)
    (h : l[i]?.map CTag.SkipMe = some true) :
    (removeDefinedProtypes l)[i]?.map CTag.SkipMe = some true := by
  rw [removeDefinedProtypes_getElem?]
  cases hx : l[i]? with
  | none => simp [hx] at h
  | some x =>
    rw [hx] at h
    simp only [Option.map_some'] at h ⊢
    replace h : x.SkipMe = true := by simpa using h
    split <;> simp [h]

theorem removeDefinedProtypes_sets {l : List CTag} {i : Nat} {x : CTag}
    (hx : l[i]? = some x)
    (hmem : x.Prototype ∈ (l.filter (fun tag => tag.Kind = KIND_PROTOTYPE)).map
      (fun tag => tag.Prototype)) :
    (removeDefinedProtypes l)[i]?.map CTag.SkipMe = some true := by
  rw [removeDefinedProtypes_getElem?, hx]
  simp only [Option.map_some']
  rw [if_pos hmem]

theorem removeDefinedProtypes_forget (l : List CTag) :
    (removeDefinedProtypes l).map forgetSkip = l.map forgetSkip := by
  simp only [removeDefinedProtypes, List.map_map]
  refine List.map_congr_left (fun t _ => ?_)
  simp only [Function.comp_apply]
  split <;> rfl

theorem skipDuplicatesAux_forget (l : List CTag) : ∀ seen : List Str,
    (skipDuplicatesAux seen l).map forgetSkip = l.map forgetSkip := by
  induction l with
  | nil => intro seen; rfl
  | cons t ts ih =>
    intro seen
    unfold skipDuplicatesAux
    split
    · rw [List.map_cons, List.map_cons, ih]
    · rw [List.map_cons, List.map_cons, ih]
      rfl

theorem skipDuplicatesAux_skipMono (l : List CTag) : ∀ (seen : List Str) (i : Nat),
    l[i]?.map CTag.SkipMe = some true →
    (skipDuplicatesAux seen l)[i]?.map CTag.SkipMe = some true := by
  induction l with
  | nil => intro seen i h; simp at h
  | cons t ts ih =>
    intro seen i h
    unfold skipDuplicatesAux
    match i with
    | 0 =>
      simp only [List.getElem?_cons_zero, Option.map_some'] at h
      replace h : t.SkipMe = true := by simpa using h
      split
      · rename_i hc
        rw [Bool.and_eq_true] at hc
        rw [h] at hc
        simp at hc
      · simp
    | i + 1 =>
      rw [List.getElem?_cons_succ] at h
      split <;> (rw [List.getElem?_cons_succ]; exact ih _ i h)

theorem skipDuplicatesAux_keep (l : List CTag) : ∀ (seen : List Str) (i : Nat) (t : CTag),
    l[i]? = some t → t.SkipMe = false → t.Prototype ∉ seen →
    (∀ j u, j < i → l[j]? = some u → u.Prototype = t.Prototype → u.SkipMe = true) →
    (skipDuplicatesAux seen l)[i]? = some t := by
  induction l with
  | nil => intro seen i t h _ _ _; simp at h
  | cons x xs ih =>
    intro seen i t hget hskip hseen hearlier
    unfold skipDuplicatesAux
    match i with
    | 0 =>
      simp only [List.getElem?_cons_zero, Option.some.injEq] at hget
      subst hget
      rw [if_pos (by simp [hseen, hskip])]
      simp
    | i + 1 =>
      have hxs : xs[i]? = some t := by rw [List.getElem?_cons_succ] at hget; exact hget
      have hearlier' : ∀ j u, j < i → xs[j]? = some u → u.Prototype = t.Prototype →
          u.SkipMe = true := by
        intro j u hj hu hp
        exact hearlier (j + 1) u (Nat.succ_lt_succ hj)
          (by rw [List.getElem?_cons_succ]; exact hu) hp
      split
      · rename_i hc
        rw [List.getElem?_cons_succ]
        refine ih _ i t hxs hskip ?_ hearlier'
        intro hmem
        rcases List.mem_cons.mp hmem with heq | hmem'
        · have hx0 : (x :: xs)[0]? = some x := by simp
          have hxskip := hearlier 0 x (Nat.succ_pos i) hx0 heq.symm
          rw [Bool.and_eq_true] at hc
          rw [hxskip] at hc
          simp at hc
        · exact hseen hmem'
      · rw [List.getElem?_cons_succ]
        exact ih _ i t hxs hskip hseen hearlier'

theorem skipDuplicates_forget (l : List CTag) :
    (skipDuplicates l).map forgetSkip = l.map forgetSkip :=
  skipDuplicatesAux_forget l []

theorem skipDuplicates_skipMono (l : List CTag) (i : Nat)
    (h : l[i]?.map CTag.SkipMe = some true) :
    (skipDuplicates l)[i]?.map CTag.SkipMe = some true :=
  skipDuplicatesAux_skipMono l [] i h

theorem skipTagsWhere_stable (f : CTag → Bool) (l : List CTag) :
    (skipTagsWhere f l).map stableOf = l.map stableOf :=
  stable_of_forget (skipTagsWhere_forget f l)

theorem removeDefinedProtypes_stable (l : List CTag) :
    (removeDefinedProtypes l).map stableOf = l.map stableOf :=
  stable_of_forget (removeDefinedProtypes_forget l)

theorem skipDuplicates_stable (l : List CTag) :
    (skipDuplicates l).map stableOf = l.map stableOf :=
  stable_of_forget (skipDuplicates_forget l)

theorem skipTagsWhere_after (f : CTag → Bool) {l : List CTag} {i : Nat} {x : CTag}
    (hx : l[i]? = some x) :
    (skipTagsWhere f l)[i]? =
      some (if !x.SkipMe then { x with SkipMe := f x } else x) := by
  rw [skipTagsWhere_getElem?, hx]
  rfl

/-! ### Lemmas: the whole pipeline -/

theorem parse_some_destruct {ftm : CTag → Str} {buf : Str} {tags : List CTag}
    (h : parse ftm buf = some tags) :
    ∃ ts0, parseRows (removeEmpty (goSplit buf '\n')) = some ts0 ∧
      tags = skipTagsWhere prototypeAndCodeDontMatch
        (skipDuplicates
          (removeDefinedProtypes
            (addPrototypes ftm
              (skipTagsWhere tagIsUnhandled
                (skipTagsWhere tagIsUnknown ts0))))) := by
  unfold parse at h
  match hts : parseRows (removeEmpty (goSplit buf '\n')) with
  | none => rw [hts] at h; cases h
  | some ts0 =>
    rw [hts] at h
    cases h
    exact ⟨ts0, rfl, rfl⟩

theorem parseRows_skipMe {rows : List Str} {ts : List CTag} (h : parseRows rows = some ts) :
    ∀ t ∈ ts, t.SkipMe = false := by
  induction rows generalizing ts with
  | nil =>
    unfold parseRows at h
    cases h
    intro t ht
    simp at ht
  | cons row rows ih =>
    unfold parseRows at h
    match hp : parseTag row, hps : parseRows rows with
    | some tag, some tags' =>
      rw [hp, hps] at h
      cases h
      intro t ht
      rcases List.mem_cons.mp ht with rfl | ht'
      · exact parseTag_skipMe hp
      · exact ih hps t ht'
    | some tag, none => rw [hp, hps] at h; cases h
    | none, _ => rw [hp] at h; cases h

theorem tagIsUnhandled_skip (u : CTag) (b : Bool) :
    tagIsUnhandled { u with SkipMe := b } = tagIsUnhandled u := rfl

theorem tagIsUnknown_skip (u : CTag) (b : Bool) :
    tagIsUnknown { u with SkipMe := b } = tagIsUnknown u := rfl

end Ctags

namespace Ctags

/-- C4: for every decoded tag of the pipeline result whose kind is not in
the fixed set {function, prototype} (i.e. not in `KNOWN_TAG_KINDS`), the
tag is suppressed, regardless of all its other fields. -/
theorem unknown_kind_suppressed {ftm : CTag → Str} {buf : Str} {tags : List CTag}
    (hp : parse ftm buf = some tags) {i : Nat} {t : CTag}
    (ht : tags[i]? = some t) (hk : KNOWN_TAG_KINDS t.Kind = false) :
    t.SkipMe = true := by
  obtain ⟨ts0, hts0, htags⟩ := parse_some_destruct hp
  have hstable : tags.map stableOf = ts0.map stableOf := by
    rw [htags, skipTagsWhere_stable, skipDuplicates_stable, removeDefinedProtypes_stable,
      addPrototypes_stable, skipTagsWhere_stable, skipTagsWhere_stable]
  obtain ⟨u, hu, hustab⟩ := stable_getElem? hstable ht
  have huskip : u.SkipMe = false := parseRows_skipMe hts0 u (List.getElem?_mem hu)
  have hkind : u.Kind = t.Kind := (stableOf_fields hustab).2.2.1
  have h1 : (skipTagsWhere tagIsUnknown ts0)[i]?.map CTag.SkipMe = some true := by
    rw [skipTagsWhere_after tagIsUnknown hu]
    simp [huskip, tagIsUnknown, hkind, hk]
  have h2 := skipTagsWhere_skipMono tagIsUnhandled _ i h1
  have h3 := (addPrototypes_skipEq ftm
    (skipTagsWhere tagIsUnhandled (skipTagsWhere tagIsUnknown ts0)) i).trans h2
  have h4 := removeDefinedProtypes_skipMono _ i h3
  have h5 := skipDuplicates_skipMono _ i h4
  have h6 := skipTagsWhere_skipMono prototypeAndCodeDontMatch _ i h5
  rw [← htags, ht] at h6
  simpa using h6

/-- Witness for C4 at a concrete input: a tag of kind `variable` comes out
of the pipeline suppressed. -/
theorem unknown_kind_suppressed_witness :
    (((parse ftm0 kindRow).getD []).getD 0 {}).SkipMe = true :=
  @unknown_kind_suppressed ftm0 kindRow ((parse ftm0 kindRow).getD [])
    (by decide) 0 (((parse ftm0 kindRow).getD []).getD 0 {}) (by decide) (by decide)

/-- C5: for every decoded tag of the pipeline result with a non-empty
enclosing class, struct or namespace, the tag is suppressed (whatever its
kind). -/
theorem scoped_tag_suppressed {ftm : CTag → Str} {buf : Str} {tags : List CTag}
    (hp : parse ftm buf = some tags) {i : Nat} {t : CTag}
    (ht : tags[i]? = some t)
    (hscope : t.Class ≠ [] ∨ t.Struct ≠ [] ∨ t.Namespace ≠ []) :
    t.SkipMe = true := by
  obtain ⟨ts0, hts0, htags⟩ := parse_some_destruct hp
  have hstable : tags.map stableOf = ts0.map stableOf := by
    rw [htags, skipTagsWhere_stable, skipDuplicates_stable, removeDefinedProtypes_stable,
      addPrototypes_stable, skipTagsWhere_stable, skipTagsWhere_stable]
  obtain ⟨u, hu, hustab⟩ := stable_getElem? hstable ht
  have huskip : u.SkipMe = false := parseRows_skipMe hts0 u (List.getElem?_mem hu)
  have hfields := stableOf_fields hustab
  have hC : u.Class = t.Class := hfields.2.2.2.2.2.2.1
  have hS : u.Struct = t.Struct := hfields.2.2.2.2.2.2.2.1
  have hN : u.Namespace = t.Namespace := hfields.2.2.2.2.2.2.2.2.1
  have hscope' : u.Class ≠ [] ∨ u.Struct ≠ [] ∨ u.Namespace ≠ [] := by
    rw [hC, hS, hN]
    exact hscope
  have hunh : tagIsUnhandled u = true := by
    unfold tagIsUnhandled isHandled
    rcases hscope' with h | h | h <;> split_ifs <;> simp_all
  have h1 : (skipTagsWhere tagIsUnknown ts0)[i]? =
      some { u with SkipMe := tagIsUnknown u } := by
    rw [skipTagsWhere_after tagIsUnknown hu]
    simp [huskip]
  have h2 : (skipTagsWhere tagIsUnhandled
      (skipTagsWhere tagIsUnknown ts0))[i]?.map CTag.SkipMe = some true := by
    rw [skipTagsWhere_after tagIsUnhandled h1]
    by_cases hb : tagIsUnknown u = true
    · simp [hb]
    · have hb' : tagIsUnknown u = false := by simpa using hb
      simp [hb', tagIsUnhandled_skip, hunh]
  have h3 := (addPrototypes_skipEq ftm
    (skipTagsWhere tagIsUnhandled (skipTagsWhere tagIsUnknown ts0)) i).trans h2
  have h4 := removeDefinedProtypes_skipMono _ i h3
  have h5 := skipDuplicates_skipMono _ i h4
  have h6 := skipTagsWhere_skipMono prototypeAndCodeDontMatch _ i h5
  rw [← htags, ht] at h6
  simpa using h6

/-- Witness for C5 at a concrete input: a function tag scoped inside a
class comes out of the pipeline suppressed. -/
theorem scoped_tag_suppressed_witness :
    (((parse ftm0 scopeRow).getD []).getD 0 {}).SkipMe = true :=
  @scoped_tag_suppressed ftm0 scopeRow ((parse ftm0 scopeRow).getD [])
    (by decide) 0 (((parse ftm0 scopeRow).getD []).getD 0 {}) (by decide) (by decide)

/-- C7: the suppression flag is write-once-true. Position by position, an
already-suppressed tag stays suppressed through every pipeline stage:
`skipTagsWhere` (which runs the kind filter, the scope filter and the
consistency filter, for any predicate), the synthesizer (which never writes
the flag at all), the shadow resolver and the duplicate resolver. -/
theorem suppressed_flag_monotone :
    (∀ (f : CTag → Bool) (l : List CTag) (i : Nat),
        l[i]?.map CTag.SkipMe = some true →
        (skipTagsWhere f l)[i]?.map CTag.SkipMe = some true) ∧
    (∀ (ftm : CTag → Str) (l : List CTag) (i : Nat),
        (addPrototypes ftm l)[i]?.map CTag.SkipMe = l[i]?.map CTag.SkipMe) ∧
    (∀ (l : List CTag) (i : Nat),
        l[i]?.map CTag.SkipMe = some true →
        (removeDefinedProtypes l)[i]?.map CTag.SkipMe = some true) ∧
    (∀ (l : List CTag) (i : Nat),
        l[i]?.map CTag.SkipMe = some true →
        (skipDuplicates l)[i]?.map CTag.SkipMe = some true) :=
  ⟨skipTagsWhere_skipMono, addPrototypes_skipEq, removeDefinedProtypes_skipMono,
    skipDuplicates_skipMono⟩

/-- Witness for C7: a suppressed tag stays suppressed through each stage at
a concrete input. -/
theorem suppressed_flag_monotone_witness :
    (skipTagsWhere (fun _ => false) [{ SkipMe := true }])[0]?.map CTag.SkipMe = some true ∧
    (addPrototypes ftm0 [{ SkipMe := true }])[0]?.map CTag.SkipMe =
      (([{ SkipMe := true }] : List CTag))[0]?.map CTag.SkipMe ∧
    (removeDefinedProtypes [{ SkipMe := true }])[0]?.map CTag.SkipMe = some true ∧
    (skipDuplicates [{ SkipMe := true }])[0]?.map CTag.SkipMe = some true :=
  ⟨suppressed_flag_monotone.1 (fun _ => false) [{ SkipMe := true }] 0 (by decide),
   suppressed_flag_monotone.2.1 ftm0 [{ SkipMe := true }] 0,
   suppressed_flag_monotone.2.2.1 [{ SkipMe := true }] 0 (by decide),
   suppressed_flag_monotone.2.2.2 [{ SkipMe := true }] 0 (by decide)⟩

/-- C10: during duplicate resolution, a tag that is already suppressed when
scanned does not record its declaration text as seen: the first
not-yet-suppressed tag bearing a given text is kept (returned unchanged,
hence not suppressed), even when suppressed tags with the same text precede
it in the list. -/
theorem suppressed_tag_does_not_register_duplicate (tags : List CTag) (i : Nat) (t : CTag)
    (hget : tags[i]? = some t) (hskip : t.SkipMe = false)
    (hearlier : ∀ j u, j < i → tags[j]? = some u → u.Prototype = t.Prototype →
      u.SkipMe = true) :
    (skipDuplicates tags)[i]? = some t :=
  skipDuplicatesAux_keep tags [] i t hget hskip (by simp) hearlier

/-- Witness for C10: with a suppressed first tag and an unsuppressed second
tag of the same text, the second is kept. -/
theorem suppressed_tag_does_not_register_duplicate_witness :
    (skipDuplicates [{ Prototype := "p".data, SkipMe := true },
      { Prototype := "p".data }])[1]? = some { Prototype := "p".data } :=
  suppressed_tag_does_not_register_duplicate
    [{ Prototype := "p".data, SkipMe := true }, { Prototype := "p".data }] 1
    { Prototype := "p".data } (by decide) (by decide)
    (by
      intro j u hj hu hp
      have hj0 : j = 0 := Nat.lt_one_iff.mp hj
      subst hj0
      simp only [List.getElem?_cons_zero, Option.some.injEq] at hu
      rw [← hu])

/-- C6: the spec's deduplication scenario. Three function tags (and no
prototype tags) all synthesize `int bar(int);`; after the full pipeline
exactly the first remains unsuppressed, the other two are suppressed. -/
theorem dedup_first_kept :
    (parse ftm0 dedupInput).map (List.map (fun t => (t.Prototype, t.SkipMe))) =
      some [("int bar(int);".data, false), ("int bar(int);".data, true),
            ("int bar(int);".data, true)] := by
  decide

/-- C1 counterexample: in the spec's shadowing scenario (one function tag and
one prototype tag both with declaration text `void foo();`) the pipeline
suppresses BOTH tags — the prototype-kind tag is not kept, contradicting the
claim that it survives with `suppressed = false`. -/
theorem shadow_scenario_counterexample :
    (parse ftm0 shadowInput).map (List.map (fun t => (t.Kind, t.Prototype, t.SkipMe))) =
      some [("function".data, "void foo();".data, true),
            ("prototype".data, "void foo();".data, true)] := by
  decide

/-- C1 amended: every tag whose declaration text coincides with that of some
prototype-kind tag is suppressed by the pipeline — the function tag of the
shadowing scenario, but also the prototype-kind tag itself. -/
theorem shadowed_text_suppressed {ftm : CTag → Str} {buf : Str} {tags : List CTag}
    (hp : parse ftm buf = some tags) {i j : Nat} {t u : CTag}
    (ht : tags[i]? = some t) (hu : tags[j]? = some u)
    (hku : u.Kind = KIND_PROTOTYPE) (hpe : t.Prototype = u.Prototype) :
    t.SkipMe = true := by
  obtain ⟨ts0, hts0, htags⟩ := parse_some_destruct hp
  have hforget : tags.map forgetSkip =
      (addPrototypes ftm (skipTagsWhere tagIsUnhandled
        (skipTagsWhere tagIsUnknown ts0))).map forgetSkip := by
    rw [htags, skipTagsWhere_forget, skipDuplicates_forget, removeDefinedProtypes_forget]
  obtain ⟨t3, ht3, ht3f⟩ := forget_getElem? hforget ht
  obtain ⟨u3, hu3, hu3f⟩ := forget_getElem? hforget hu
  have htp : t3.Prototype = t.Prototype := (forgetSkip_fields ht3f).2.1
  have hup : u3.Prototype = u.Prototype := (forgetSkip_fields hu3f).2.1
  have huk : u3.Kind = u.Kind := (forgetSkip_fields hu3f).1
  have hmem : t3.Prototype ∈
      ((addPrototypes ftm (skipTagsWhere tagIsUnhandled
        (skipTagsWhere tagIsUnknown ts0))).filter
          (fun tag => tag.Kind = KIND_PROTOTYPE)).map (fun tag => tag.Prototype) := by
    refine List.mem_map.mpr ⟨u3, List.mem_filter.mpr ⟨List.getElem?_mem hu3, ?_⟩, ?_⟩
    · simp [huk, hku]
    · rw [hup, htp, hpe]
  have h4 := removeDefinedProtypes_sets ht3 hmem
  have h5 := skipDuplicates_skipMono _ i h4
  have h6 := skipTagsWhere_skipMono prototypeAndCodeDontMatch _ i h5
  rw [← htags, ht] at h6
  simpa using h6

/-- Witness for the amended C1 at the concrete shadowing scenario: the
function tag (position 0) is suppressed because the prototype tag
(position 1) carries the same declaration text. -/
theorem shadowed_text_suppressed_witness :
    (((parse ftm0 shadowInput).getD []).getD 0 {}).SkipMe = true :=
  @shadowed_text_suppressed ftm0 shadowInput ((parse ftm0 shadowInput).getD [])
    (by decide) 0 1 (((parse ftm0 shadowInput).getD []).getD 0 {})
    (((parse ftm0 shadowInput).getD []).getD 1 {})
    (by decide) (by decide) (by decide) (by decide)

/-- C9: order preservation. The pipeline result pairs up one-to-one, in
order, with the decoded rows (same length, same decoder-produced fields
position by position), and every individual stage preserves the list
element-wise (no reordering, insertion or removal). -/
theorem pipeline_preserves_order :
    (∀ (ftm : CTag → Str) (buf : Str) (tags : List CTag), parse ftm buf = some tags →
      ∃ ts0, parseRows (removeEmpty (goSplit buf '\n')) = some ts0 ∧
        tags.length = ts0.length ∧ tags.map stableOf = ts0.map stableOf ∧
        ts0.length = (removeEmpty (goSplit buf '\n')).length) ∧
    (∀ (f : CTag → Bool) (l : List CTag),
      (skipTagsWhere f l).map stableOf = l.map stableOf) ∧
    (∀ (ftm : CTag → Str) (l : List CTag),
      (addPrototypes ftm l).map stableOf = l.map stableOf) ∧
    (∀ l : List CTag, (removeDefinedProtypes l).map stableOf = l.map stableOf) ∧
    (∀ l : List CTag, (skipDuplicates l).map stableOf = l.map stableOf) := by
  refine ⟨?_, skipTagsWhere_stable, addPrototypes_stable, removeDefinedProtypes_stable,
    skipDuplicates_stable⟩
  intro ftm buf tags hp
  obtain ⟨ts0, hts0, htags⟩ := parse_some_destruct hp
  have hstable : tags.map stableOf = ts0.map stableOf := by
    rw [htags, skipTagsWhere_stable, skipDuplicates_stable, removeDefinedProtypes_stable,
      addPrototypes_stable, skipTagsWhere_stable, skipTagsWhere_stable]
  refine ⟨ts0, hts0, ?_, hstable, (parseRows_getElem? hts0).1⟩
  have hlen := congrArg List.length hstable
  simpa using hlen

/-- Witness for C9 at the concrete shadowing input. -/
theorem pipeline_preserves_order_witness :
    ∃ ts0, parseRows (removeEmpty (goSplit shadowInput '\n')) = some ts0 ∧
      ((parse ftm0 shadowInput).getD []).length = ts0.length ∧
      ((parse ftm0 shadowInput).getD []).map stableOf = ts0.map stableOf ∧
      ts0.length = (removeEmpty (goSplit shadowInput '\n')).length :=
  pipeline_preserves_order.1 ftm0 shadowInput ((parse ftm0 shadowInput).getD [])
    (by decide)

/-! ### Lemmas: single-character search indices -/

theorem isPrefixOf_single (c a : Char) (rest : Str) :
    [c].isPrefixOf (a :: rest) = (c == a) := by
  simp [List.isPrefixOf]

theorem goIndex_nonneg_or (s sub : Str) : goIndex s sub = -1 ∨ 0 ≤ goIndex s sub := by
  induction s with
  | nil => unfold goIndex; split <;> simp
  | cons c rest ih =>
    unfold goIndex
    split_ifs with h1 h2
    · exact Or.inr (le_refl 0)
    · exact Or.inl rfl
    · rcases ih with h | h
      · exact absurd h h2
      · exact Or.inr (by omega)

theorem goIndex_single_neg_iff (s : Str) (c : Char) :
    goIndex s [c] = -1 ↔ c ∉ s := by
  induction s with
  | nil => simp [goIndex]
  | cons a rest ih =>
    unfold goIndex
    rw [isPrefixOf_single]
    by_cases hca : c = a
    · rw [if_pos (by rw [beq_iff_eq.mpr hca])]
      constructor
      · intro h0; exact absurd h0 (by omega)
      · intro hn; exact absurd (by rw [hca]; exact List.mem_cons_self a rest) hn
    · rw [if_neg (by rw [beq_eq_false_iff_ne.mpr hca]; exact Bool.false_ne_true)]
      by_cases h2 : goIndex rest [c] = -1
      · rw [if_pos h2]
        simp [List.mem_cons, hca, ih.mp h2]
      · rw [if_neg h2]
        have hge : 0 ≤ goIndex rest [c] := by
          rcases goIndex_nonneg_or rest [c] with h | h
          · exact absurd h h2
          · exact h
        constructor
        · intro habs; exact absurd habs (by omega)
        · intro hnotin
          exact absurd (ih.mpr (fun hm => hnotin (List.mem_cons_of_mem a hm))) h2

theorem goContains_single (s : Str) (c : Char) : goContains s [c] = true ↔ c ∈ s := by
  unfold goContains
  rw [decide_eq_true_eq, Ne, goIndex_single_neg_iff, not_not]

theorem take_goIndex_single (s : Str) (c : Char) (h : c ∈ s) :
    s.take (goIndex s [c]).toNat = s.takeWhile (fun a => a ≠ c) := by
  induction s with
  | nil => simp at h
  | cons a rest ih =>
    unfold goIndex
    rw [isPrefixOf_single]
    by_cases hca : c = a
    · rw [if_pos (by rw [beq_iff_eq.mpr hca])]
      have hac : a = c := hca.symm
      simp [List.takeWhile_cons, hac]
    · rw [if_neg (by rw [beq_eq_false_iff_ne.mpr hca]; exact Bool.false_ne_true)]
      have hmem : c ∈ rest := by
        rcases List.mem_cons.mp h with h1 | h1
        · exact absurd h1 hca
        · exact h1
      have hne : goIndex rest [c] ≠ -1 :=
        fun he => (goIndex_single_neg_iff rest c).mp he hmem
      rw [if_neg hne]
      have hge : 0 ≤ goIndex rest [c] := by
        rcases goIndex_nonneg_or rest [c] with h1 | h1
        · exact absurd h1 hne
        · exact h1
      have htn : (goIndex rest [c] + 1).toNat = (goIndex rest [c]).toNat + 1 := by omega
      rw [htn, List.take_succ_cons,
        List.takeWhile_cons_of_pos (by exact decide_eq_true (fun hh => hca hh.symm)),
        ih hmem]

theorem goLastIndex_nonneg_or (s sub : Str) :
    goLastIndex s sub = -1 ∨ 0 ≤ goLastIndex s sub := by
  induction s with
  | nil => unfold goLastIndex; split <;> simp
  | cons c rest ih =>
    unfold goLastIndex
    split_ifs with h1 h2
    · rcases ih with h | h
      · exact absurd h h1
      · exact Or.inr (by omega)
    · exact Or.inr (le_refl 0)
    · exact Or.inl rfl

theorem goLastIndex_single_neg_iff (s : Str) (c : Char) :
    goLastIndex s [c] = -1 ↔ c ∉ s := by
  induction s with
  | nil => simp [goLastIndex]
  | cons a rest ih =>
    unfold goLastIndex
    by_cases h1 : goLastIndex rest [c] ≠ -1
    · rw [if_pos h1]
      have hge : 0 ≤ goLastIndex rest [c] := by
        rcases goLastIndex_nonneg_or rest [c] with h | h
        · exact absurd h h1
        · exact h
      have hmem : c ∈ rest := by
        by_contra hn
        exact h1 (ih.mpr hn)
      constructor
      · intro habs; exact absurd habs (by omega)
      · intro hn; exact absurd (List.mem_cons_of_mem a hmem) hn
    · rw [if_neg h1, not_ne_iff] at *
      have hnotin : c ∉ rest := ih.mp h1
      rw [isPrefixOf_single]
      by_cases hca : c = a
      · rw [if_pos (by rw [beq_iff_eq.mpr hca])]
        constructor
        · intro h0; exact absurd h0 (by omega)
        · intro hn
          exact absurd (by rw [hca]; exact List.mem_cons_self a rest) hn
      · rw [if_neg (by rw [beq_eq_false_iff_ne.mpr hca]; exact Bool.false_ne_true)]
        simp [List.mem_cons, hca, hnotin]

theorem take_goLastIndex_single (s : Str) (c : Char) :
    s.take (goLastIndex s [c] + 1).toNat =
      (s.reverse.dropWhile (fun a => a ≠ c)).reverse := by
  induction s with
  | nil => simp [goLastIndex]
  | cons a rest ih =>
    unfold goLastIndex
    by_cases h1 : goLastIndex rest [c] ≠ -1
    · rw [if_pos h1]
      have hge : 0 ≤ goLastIndex rest [c] := by
        rcases goLastIndex_nonneg_or rest [c] with h | h
        · exact absurd h h1
        · exact h
      have hmem : c ∈ rest := by
        by_contra hn
        exact h1 ((goLastIndex_single_neg_iff rest c).mpr hn)
      have htn : (goLastIndex rest [c] + 1 + 1).toNat = (goLastIndex rest [c] + 1).toNat + 1 := by
        omega
      rw [htn, List.take_succ_cons, List.reverse_cons, List.dropWhile_append]
      have hne : rest.reverse.dropWhile (fun a => a ≠ c) ≠ [] := by
        rw [Ne, List.dropWhile_eq_nil_iff]
        push_neg
        exact ⟨c, by simpa using hmem, by simp⟩
      rw [if_neg (by simpa [List.isEmpty_iff] using hne)]
      rw [List.reverse_append, ih]
      rfl
    · rw [if_neg h1]
      rw [not_ne_iff] at h1
      have hnotin : c ∉ rest := (goLastIndex_single_neg_iff rest c).mp h1
      have hdropAll : rest.reverse.dropWhile (fun a => a ≠ c) = [] := by
        rw [List.dropWhile_eq_nil_iff]
        intro x hx
        exact decide_eq_true (fun he => hnotin (he ▸ List.mem_reverse.mp hx))
      rw [isPrefixOf_single]
      by_cases hca : c = a
      · rw [if_pos (by rw [beq_iff_eq.mpr hca])]
        rw [List.reverse_cons, List.dropWhile_append, if_pos (by rw [hdropAll]; rfl)]
        have hac : a = c := hca.symm
        simp [List.dropWhile_cons, hac]
      · rw [if_neg (by rw [beq_eq_false_iff_ne.mpr hca]; exact Bool.false_ne_true)]
        rw [List.reverse_cons, List.dropWhile_append, if_pos (by rw [hdropAll]; rfl)]
        have hpa : a ≠ c := fun hh => hca hh.symm
        simp [List.dropWhile_cons, hpa]

/-- C2 counterexample: on the spec's own snippet
`template <typename T> T add(T a, T b) {` the synthesizer yields
`template <typename T> T add(T a, T b) ;` — with the space before the `{`
preserved — and not the claimed `template <typename T> T add(T a, T b);`. -/
theorem template_rebuild_counterexample :
    (addPrototypes ftm0 [templateTag])[0]?.map CTag.Prototype =
        some "template <typename T> T add(T a, T b) ;".data ∧
      "template <typename T> T add(T a, T b) ;".data ≠
        "template <typename T> T add(T a, T b);".data := by
  decide

/-- C2 amended: for a non-suppressed tag whose declaration text and code
snippet both begin with `template`, the synthesizer rebuilds the declaration
from the snippet — everything strictly before the first `{` when one is
present, otherwise everything up to and including the last `)` — and appends
`;` without trimming, so the spec scenario yields
`template <typename T> T add(T a, T b) ;` (note the space kept before the
semicolon). -/
theorem template_declaration_rebuild :
    (∀ (ftm : CTag → Str) (l : List CTag) (i : Nat) (t : CTag),
      l[i]? = some t → t.SkipMe = false →
      goIndex t.Prototype TEMPLATE = 0 → goIndex t.Code TEMPLATE = 0 →
      (addPrototypes ftm l)[i]?.map CTag.Prototype =
        some ((if '{' ∈ t.Code then t.Code.takeWhile (fun c => c ≠ '{')
               else (t.Code.reverse.dropWhile (fun c => c ≠ ')')).reverse) ++
              ";".data)) ∧
    (addPrototypes ftm0 [templateTag])[0]?.map CTag.Prototype =
      some "template <typename T> T add(T a, T b) ;".data := by
  constructor
  · intro ftm l i t hget hskip hproto hcode
    rw [addPrototypes_getElem?, hget]
    simp only [Option.map_some', hskip, Bool.not_false, if_true]
    simp only [addPrototype]
    rw [if_pos hproto, if_pos hcode]
    by_cases hbr : goContains t.Code ['{'] = true
    · rw [if_pos hbr]
      have hc : '{' ∈ t.Code := (goContains_single t.Code '{').mp hbr
      rw [take_goIndex_single t.Code '{' hc, if_pos hc]
    · rw [if_neg hbr]
      have hnc : '{' ∉ t.Code := fun hm => hbr ((goContains_single t.Code '{').mpr hm)
      rw [if_neg hnc, take_goLastIndex_single]
  · decide

/-- Witness for the amended C2: the general template-rebuild statement
applied to the spec's concrete template tag. -/
theorem template_declaration_rebuild_witness :
    (addPrototypes ftm0 [templateTag])[0]?.map CTag.Prototype =
      some ((if '{' ∈ templateTag.Code then
               templateTag.Code.takeWhile (fun c => c ≠ '{')
             else (templateTag.Code.reverse.dropWhile (fun c => c ≠ ')')).reverse) ++
            ";".data) :=
  template_declaration_rebuild.1 ftm0 [templateTag] 0 templateTag
    (by decide) (by decide) (by decide) (by decide)

/-- C3 counterexample: a non-blank line without any tab character makes the
decoder (and hence the pipeline) hit the out-of-range index `parts[1]`,
modelled as `none` — the run aborts instead of degrading gracefully. -/
theorem decode_panic_counterexample :
    parseTag "foo".data = none ∧ parse ftm0 "foo".data = none := by
  decide

/-- C3 amended: the pipeline completes without a runtime error on every
input whose non-blank lines all have at least two tab-separated fields and
well-ordered `/^` … `$/;` pattern markers; on such rows every recognized
field keeps the value that was extracted for it and absent fields default
to the empty string (and `0` for the line number). -/
theorem decode_no_error_on_tagged_rows :
    (∀ (ftm : CTag → Str) (buf : Str),
      (∀ row ∈ removeEmpty (goSplit buf '\n'),
        2 ≤ (goSplit row '\t').length ∧ markerOk row = true) →
      (parse ftm buf).isSome = true) ∧
    (∀ row : Str, 2 ≤ (goSplit row '\t').length → markerOk row = true →
      parseTag row = some (extractedTag row)) ∧
    (∀ (row key : Str),
      (((goSplit row '\t').drop 2).all (fun part => !(isFieldPart key part))) = true →
      tagFieldValue row key = []) ∧
    (∀ row : Str,
      (((goSplit row '\t').drop 2).all
        (fun part => !(isFieldPart "line".data part))) = true →
      (extractedTag row).Line = 0) := by
  refine ⟨?_, parseTag_eq_extracted, ?_, ?_⟩
  · intro ftm buf hrows
    have hsome := parseRows_isSome (fun row hr => by
      obtain ⟨h1, h2⟩ := hrows row hr
      rw [parseTag_eq_extracted row h1 h2]
      rfl)
    unfold parse
    match hpr : parseRows (removeEmpty (goSplit buf '\n')) with
    | some ts => rfl
    | none => rw [hpr] at hsome; cases hsome
  · intro row key hall
    unfold tagFieldValue
    refine fieldUpd_fold_no_match ?_ []
    intro part hp
    have h1 := List.all_eq_true.mp hall part hp
    rw [Bool.not_eq_true'] at h1
    exact h1
  · intro row hall
    have hline : ((goSplit row '\t').drop 2).any (isFieldPart "line".data) = false := by
      rw [List.any_eq_false]
      intro part hp
      have h1 := List.all_eq_true.mp hall part hp
      rw [Bool.not_eq_true'] at h1
      rw [h1]
      exact Bool.false_ne_true
    simp only [extractedTag]
    rw [lineUpd_fold _ 0 [], if_neg (by rw [hline]; exact Bool.false_ne_true)]

/-- Witness for the amended C3 at a concrete two-row buffer. -/
theorem decode_no_error_on_tagged_rows_witness :
    (parse ftm0 shadowInput).isSome = true ∧
      parseTag kindRow = some (extractedTag kindRow) :=
  ⟨decode_no_error_on_tagged_rows.1 ftm0 shadowInput
      (by
        intro row hr
        refine ⟨?_, ?_⟩ <;> revert hr <;> revert row <;> decide),
    decode_no_error_on_tagged_rows.2.1 kindRow (by decide) (by decide)⟩

/-- C8: a row whose `line:` field value is not a syntactically valid integer
decodes without an error; its line number defaults to `0` and every other
field still takes exactly the value the decoder extracts for it. -/
theorem invalid_line_value_defaults_zero (row : Str)
    (htab : 2 ≤ (goSplit row '\t').length) (hmark : markerOk row = true)
    (hinv : isValidIntSyntax (tagFieldValue row "line".data) = false) :
    parseTag row = some (extractedTag row) ∧ (extractedTag row).Line = 0 := by
  refine ⟨parseTag_eq_extracted row htab hmark, ?_⟩
  simp only [extractedTag]
  rw [lineUpd_fold _ 0 []]
  split
  · exact goAtoi_invalid hinv
  · rfl

/-- Witness for C8: the row `foo … line:abc …` decodes with line number 0
and all other fields intact. -/
theorem invalid_line_value_defaults_zero_witness :
    parseTag badLineRow = some (extractedTag badLineRow) ∧
      (extractedTag badLineRow).Line = 0 :=
  invalid_line_value_defaults_zero badLineRow (by decide) (by decide) (by decide)

end Ctags
